import Mathlib

/-!
Verification of the Website Blocker extension core against its design
specification.

The JavaScript sources are shallowly embedded: JS strings are `List Char`,
JS objects used as string-keyed maps are association lists
(`List (List Char × Nat)`), the asynchronous storage-backed handlers become
pure state-passing functions, and the external collaborators (the
declarativeNetRequest engine and the alarms API) are modelled by the piece
of their state the code reads and writes (the dynamic rule collection, the
pending named alarm).  Each definition mirrors one function of the source.
-/

namespace WebsiteBlocker

/-- Coercion from a Lean string literal to the character-list representation
used throughout the embedding. -/
def str (s : String) : List Char := s.data

/-! ### JS string primitives -/

/-- Whitespace characters stripped by JS `String.prototype.trim` (the common
ASCII ones; exotic Unicode whitespace does not occur in the inputs the
sources handle). -/
def jsWhitespaceChar (c : Char) : Bool :=
  c = ' ' || c = '\t' || c = '\n' || c = '\r'

/-- JS `s.trim()`. -/
def jsTrim (s : List Char) : List Char :=
  ((s.dropWhile jsWhitespaceChar).reverse.dropWhile jsWhitespaceChar).reverse

/-- JS `s.toLowerCase()` (ASCII case mapping, which is all the sources use). -/
def jsToLower (s : List Char) : List Char := s.map Char.toLower

/-- JS `s.startsWith(p)`. -/
def jsStartsWith : List Char → List Char → Bool
  | _, [] => true
  | [], _ :: _ => false
  | c :: cs, p :: ps => c = p && jsStartsWith cs ps

/-- JS `s.split(sep)[0]` for a one-character separator: everything before the
first occurrence of `sep` (the whole string when `sep` does not occur). -/
def jsSplitHead (sep : Char) (s : List Char) : List Char :=
  s.takeWhile (fun a => a ≠ sep)

/-- JS `s.replace(/^https?:\/\//, "")`: strip a leading `http://` or
`https://` scheme. -/
def stripScheme (s : List Char) : List Char :=
  if jsStartsWith s (str "https://") then s.drop 8
  else if jsStartsWith s (str "http://") then s.drop 7
  else s

/-- Hexadecimal digit character for `n < 16`, upper case as produced by JS
`encodeURIComponent`. -/
def hexDigit (n : Nat) : Char :=
  if n < 10 then Char.ofNat (48 + n) else Char.ofNat (55 + n)

/-- Characters `encodeURIComponent` leaves unescaped. -/
def uriUnreservedChar (c : Char) : Bool :=
  c.isAlphanum || c = '-' || c = '_' || c = '.' || c = '!' || c = '~' ||
  c = '*' || c = '\'' || c = '(' || c = ')'

/-- JS `encodeURIComponent` on one character: unreserved characters pass
through, other ASCII characters are percent-escaped.  (Multi-byte UTF-8
escaping is not modelled; normalized domains as produced by the sources are
ASCII.) -/
def percentEncodeChar (c : Char) : List Char :=
  if uriUnreservedChar c then [c]
  else if c.toNat < 128 then ['%', hexDigit (c.toNat / 16), hexDigit (c.toNat % 16)]
  else [c]

/-- JS `encodeURIComponent(s)`. -/
def encodeURIComponentChars (s : List Char) : List Char :=
  (s.map percentEncodeChar).flatten

/-! ### Domain normalization

Two places in the sources normalize user-supplied text to a bare domain:
`normalizeDomain` in the popup script, and the inline chain in the
background `allowFiveMinutes` message handler.  Both are embedded
separately, from their own source text. -/

/-- Popup `normalizeDomain(raw)`: trim, lowercase, strip protocol, strip
`www.`, strip port, strip path, query and hash. -/
def normalizeDomain (raw : List Char) : List Char :=
  let domain := jsToLower (jsTrim raw)
  let domain := stripScheme domain
  let domain := if jsStartsWith domain (str "www.") then domain.drop 4 else domain
  let domain := jsSplitHead ':' domain
  let domain := jsSplitHead '/' domain
  let domain := jsSplitHead '?' domain
  let domain := jsSplitHead '#' domain
  domain

/-- Normalization chain of the background `allowFiveMinutes` handler:
`message.site.trim().toLowerCase()` then
`.replace(/^https?:\/\//, "").replace(/^www\./, "")
.split(":")[0].split("/")[0].split("?")[0].split("#")[0]`. -/
def grantNormalize (site : List Char) : List Char :=
  let raw := jsToLower (jsTrim site)
  let domain := stripScheme raw
  let domain := if jsStartsWith domain (str "www.") then domain.drop 4 else domain
  let domain := jsSplitHead ':' domain
  let domain := jsSplitHead '/' domain
  let domain := jsSplitHead '?' domain
  let domain := jsSplitHead '#' domain
  domain

/-! ### String-keyed JS objects as association lists -/

/-- JS object assignment `obj[k] = v` on a string-keyed object: overwrite the
entry for `k` in place if present, otherwise append a new entry. -/
def mapSet : List (List Char × Nat) → List Char → Nat → List (List Char × Nat)
  | [], k, v => [(k, v)]
  | p :: rest, k, v => if p.1 = k then (k, v) :: rest else p :: mapSet rest k v

/-! ### Rule ID Allocator (`getDomainRuleId`, background.js) -/

/-- Persisted allocator state: `domainIdMap` and `nextRuleId` in
`chrome.storage.local` (defaults `{}` and `1`). -/
structure AllocState where
  domainIdMap : List (List Char × Nat)
  nextRuleId : Nat
deriving DecidableEq, Repr

/-- Embedding of `getDomainRuleId(domain)` (storage-available path; the
catch-branch hash fallback runs only when the store throws and is outside
this model).  Returns the id, the post-call store state, and whether the
call wrote to the store.  The JS presence test `if (data.domainIdMap[domain])`
is a truthiness test, so a stored id `0` would count as absent; that is
mirrored here. -/
def getDomainRuleId (st : AllocState) (domain : List Char) : Nat × AllocState × Bool :=
  match st.domainIdMap.lookup domain with
  | some id =>
    if id ≠ 0 then (id, st, false)
    else
      (st.nextRuleId,
       { domainIdMap := mapSet st.domainIdMap domain st.nextRuleId,
         nextRuleId := st.nextRuleId + 1 }, true)
  | none =>
      (st.nextRuleId,
       { domainIdMap := mapSet st.domainIdMap domain st.nextRuleId,
         nextRuleId := st.nextRuleId + 1 }, true)

/-- Well-formedness of the persisted allocator state, as established by the
initial state (`{}`, `1`) and maintained by every allocation: the counter is
at least 1, every assigned id is in `[1, nextRuleId)`, domains are bound at
most once, and no id is bound to two domains. -/
def wfAlloc (st : AllocState) : Prop :=
  1 ≤ st.nextRuleId ∧
  (∀ p ∈ st.domainIdMap, 1 ≤ p.2 ∧ p.2 < st.nextRuleId) ∧
  (st.domainIdMap.map Prod.fst).Nodup ∧
  (st.domainIdMap.map Prod.snd).Nodup

instance (st : AllocState) : Decidable (wfAlloc st) := by
  unfold wfAlloc; infer_instance

/-! ### declarativeNetRequest rules -/

/-- Embedding of the rule object produced by `buildRule(domain, ruleId)`:
redirect action to the blocked page carrying the domain, condition anchored
on the domain boundary, main-frame only (the constant resource type is not
repeated here). -/
structure Rule where
  id : Nat
  priority : Nat
  redirectExtensionPath : List Char
  urlFilter : List Char
deriving DecidableEq, Repr

/-- Embedding of `buildRule(domain, ruleId)`. -/
def buildRule (domain : List Char) (ruleId : Nat) : Rule :=
  { id := ruleId,
    priority := 1,
    redirectExtensionPath :=
      str "/blocked.html?site=" ++ encodeURIComponentChars domain,
    urlFilter := str "||" ++ domain ++ str "^" }

/-- Semantics of
`chrome.declarativeNetRequest.updateDynamicRules({removeRuleIds, addRules})`
on the engine's rule collection: drop the listed ids, then append the new
rules. -/
def applyRuleUpdate (rules : List Rule) (removeRuleIds : List Nat)
    (addRules : List Rule) : List Rule :=
  rules.filter (fun r => !(removeRuleIds.contains r.id)) ++ addRules

/-- Rule list produced by the `Promise.all` in `syncRules`.  The async
mappers all start synchronously, so every `getDomainRuleId` has issued its
storage read before any mapper's continuation performs a write: each call
computes its id from the SAME pre-sync snapshot of the allocator store.
Consequently every domain not yet in the map receives that snapshot's
`nextRuleId`. -/
def buildNewRules (alloc : AllocState) (blockedSites : List (List Char)) : List Rule :=
  blockedSites.map (fun d => buildRule d (getDomainRuleId alloc d).1)

/-- Allocator storage left behind by those same concurrent `getDomainRuleId`
calls: each call that allocates writes back the map-and-counter pair it
computed from the shared snapshot (a full replacement of both keys), the
writes landing in list order, so the last allocating call wins and earlier
concurrent allocations are overwritten. -/
def allocAfterSync (alloc : AllocState) (blockedSites : List (List Char)) : AllocState :=
  blockedSites.foldl (fun acc d =>
    let r := getDomainRuleId alloc d
    if r.2.2 then r.2.1 else acc) alloc

/-- Embedding of `syncRules(blockedSites)`: read the existing dynamic rules,
build the new rules (ids resolved concurrently against the shared
snapshot), then call `updateDynamicRules` removing every existing id and
adding the new rules.  The engine rejects a batch whose added rules carry
duplicate ids; the `catch` swallows that error, leaving the previous rule
collection in place (the storage writes of the id allocation have already
happened either way). -/
def syncRules (alloc : AllocState) (existingRules : List Rule)
    (blockedSites : List (List Char)) : List Rule × AllocState :=
  let newRules := buildNewRules alloc blockedSites
  let alloc2 := allocAfterSync alloc blockedSites
  if (newRules.map Rule.id).Nodup then
    (applyRuleUpdate existingRules (existingRules.map Rule.id) newRules, alloc2)
  else
    (existingRules, alloc2)

/-! ### Effective block set (`getEffectiveBlockedSites`, background.js) -/

/-- Result of `getEffectiveBlockedSites`: the effective domain list, the
`temporaryAllows` map as left in storage, and whether the pruned map was
written back. -/
structure EffectiveResult where
  effective : List (List Char)
  temporaryAllows : List (List Char × Nat)
  persisted : Bool
deriving DecidableEq, Repr

/-- Embedding of `getEffectiveBlockedSites()`: prune entries with
`expiry <= now` (persisting exactly when something was deleted), then return
the blocked sites filtered by `!(temporaryAllows[domain] > now)` (an absent
entry compares false, so the domain stays blocked). -/
def getEffectiveBlockedSites (blockedSites : List (List Char))
    (temporaryAllows : List (List Char × Nat)) (now : Nat) : EffectiveResult :=
  let pruned := temporaryAllows.filter (fun p => decide (now < p.2))
  let changed := temporaryAllows.any (fun p => decide (p.2 ≤ now))
  let allows := if changed then pruned else temporaryAllows
  { effective :=
      blockedSites.filter (fun d => !(decide (now < ((allows.lookup d).getD 0)))),
    temporaryAllows := allows,
    persisted := changed }

/-! ### Re-block alarm (`scheduleReblockAlarm`, background.js) -/

/-- One step of the `scheduleReblockAlarm` scan: the JS condition
`expiry > now && (soonest === null || expiry < soonest)`. -/
def reblockStep (now : Nat) (soonest : Option Nat) (p : List Char × Nat) :
    Option Nat :=
  match soonest with
  | none => if now < p.2 then some p.2 else none
  | some s => if now < p.2 ∧ p.2 < s then some p.2 else some s

/-- Embedding of `scheduleReblockAlarm()`: the resulting pending "reblock"
alarm — `some t` for `chrome.alarms.create("reblock", {when: t})`, `none`
for `chrome.alarms.clear("reblock")`. -/
def scheduleReblockAlarm (temporaryAllows : List (List Char × Nat))
    (now : Nat) : Option Nat :=
  temporaryAllows.foldl (reblockStep now) none

/-! ### Temporary-allow grant (`allowFiveMinutes` message handler) -/

/-- Response sent back to the blocked page by the grant handler (the
`navigated` flag and tab navigation are external effects, not persisted
state, and are not modelled). -/
structure GrantResponse where
  ok : Bool
  error : Option (List Char)
deriving DecidableEq, Repr

/-- Grant duration: `5 * 60 * 1000` milliseconds. -/
def ALLOW_DURATION_MS : Nat := 5 * 60 * 1000

/-- Persisted and external state touched by the background worker: the
sync-scope block list, the local-scope temporary allows and allocator keys,
the engine's dynamic rule collection, and the pending "reblock" alarm. -/
structure SysState where
  blockedSites : List (List Char)
  temporaryAllows : List (List Char × Nat)
  domainIdMap : List (List Char × Nat)
  nextRuleId : Nat
  dynamicRules : List Rule
  reblockAlarm : Option Nat
deriving DecidableEq, Repr

/-- Embedding of the `allowFiveMinutes` message handler: normalize the site,
reject when the residue is empty or contains `/` or a space, otherwise
record the expiry, reschedule the reblock alarm, recompute the effective set
(pruning expired allows) and re-sync the rules. -/
def allowFiveMinutes (st : SysState) (site : List Char) (now : Nat) :
    SysState × GrantResponse :=
  let domain := grantNormalize site
  if domain.isEmpty || domain.contains '/' || domain.contains ' ' then
    (st, { ok := false, error := some (str "invalid domain") })
  else
    let allows1 := mapSet st.temporaryAllows domain (now + ALLOW_DURATION_MS)
    let alarm := scheduleReblockAlarm allows1 now
    let eff := getEffectiveBlockedSites st.blockedSites allows1 now
    let synced := syncRules { domainIdMap := st.domainIdMap,
                              nextRuleId := st.nextRuleId }
                    st.dynamicRules eff.effective
    ({ st with
        temporaryAllows := eff.temporaryAllows,
        reblockAlarm := alarm,
        domainIdMap := synced.2.domainIdMap,
        nextRuleId := synced.2.nextRuleId,
        dynamicRules := synced.1 },
     { ok := true, error := none })

/-! ### Pomodoro timer state machine (service-worker timer section) -/

/-- Timer modes: `idle`, `work`, `break` (spelled `brk`), `work-paused`,
`break-paused`. -/
inductive Mode where
  | idle | work | brk | workPaused | breakPaused
deriving DecidableEq, Repr

/-- Persisted `pomodoroState` record. -/
structure TimerState where
  mode : Mode
  timeRemaining : Nat
  workDuration : Nat
  breakDuration : Nat
  musicEnabled : Bool
  musicVolume : Nat
  lastUpdate : Nat
deriving DecidableEq, Repr

/-- Constant `WORK_DURATION` (25 minutes in seconds). -/
def WORK_DURATION : Nat := 1500

/-- Constant `BREAK_DURATION` (5 minutes in seconds). -/
def BREAK_DURATION : Nat := 300

/-- The state written by `initTimerState` on first run (`lastUpdate` is
`Date.now()` at initialization time). -/
def initialTimerState (now : Nat) : TimerState :=
  { mode := Mode.idle, timeRemaining := WORK_DURATION,
    workDuration := WORK_DURATION, breakDuration := BREAK_DURATION,
    musicEnabled := true, musicVolume := 50, lastUpdate := now }

/-- Embedding of `startTimer()`: from `idle` begin a work session, from a
paused mode resume, otherwise leave the record untouched; always create the
recurring tick alarm.  Every `updateTimerState` write stamps `lastUpdate`
with the current time.  The returned `Bool` is whether the tick alarm is
scheduled. -/
def startTimer (s : TimerState) (now : Nat) : TimerState × Bool :=
  let s1 :=
    if s.mode = Mode.idle then
      { s with mode := Mode.work, timeRemaining := s.workDuration,
               lastUpdate := now }
    else if s.mode = Mode.workPaused then
      { s with mode := Mode.work, lastUpdate := now }
    else if s.mode = Mode.breakPaused then
      { s with mode := Mode.brk, lastUpdate := now }
    else s
  (s1, true)

/-- Embedding of `pauseTimer()`: suspend a running session and clear the tick
alarm. -/
def pauseTimer (s : TimerState) (now : Nat) : TimerState × Bool :=
  let s1 :=
    if s.mode = Mode.work then
      { s with mode := Mode.workPaused, lastUpdate := now }
    else if s.mode = Mode.brk then
      { s with mode := Mode.breakPaused, lastUpdate := now }
    else s
  (s1, false)

/-- Embedding of `resetTimer()`: clear the tick alarm and write
`{mode: 'idle', timeRemaining: WORK_DURATION}` — note the source uses the
constant `WORK_DURATION`, not the record's `workDuration` field. -/
def resetTimer (s : TimerState) (now : Nat) : TimerState × Bool :=
  ({ s with mode := Mode.idle, timeRemaining := WORK_DURATION,
            lastUpdate := now }, false)

/-- Embedding of `transitionMode(currentState)`: work → break loading
`breakDuration`, break → work loading `workDuration`; no write otherwise. -/
def transitionMode (s : TimerState) (now : Nat) : TimerState :=
  if s.mode = Mode.work then
    { s with mode := Mode.brk, timeRemaining := s.breakDuration,
             lastUpdate := now }
  else if s.mode = Mode.brk then
    { s with mode := Mode.work, timeRemaining := s.workDuration,
             lastUpdate := now }
  else s

/-- Embedding of `handleTimerTick` (for the `pomodoroTick` alarm): when the
mode is neither `work` nor `break`, clear the alarm and write nothing;
otherwise compute `max(0, timeRemaining - 1)` and either transition modes
(at 0) or persist the decremented value. -/
def handleTimerTick (s : TimerState) (alarmOn : Bool) (now : Nat) :
    TimerState × Bool :=
  if s.mode ≠ Mode.work ∧ s.mode ≠ Mode.brk then (s, false)
  else
    let newTime := max 0 (s.timeRemaining - 1)
    if newTime = 0 then (transitionMode s now, alarmOn)
    else ({ s with timeRemaining := newTime, lastUpdate := now }, alarmOn)

/-- Iterated tick handler: `n` firings of the recurring one-second alarm. -/
def tickSteps (now : Nat) : Nat → TimerState × Bool → TimerState × Bool
  | 0, p => p
  | n + 1, p => tickSteps now n (handleTimerTick p.1 p.2 now)

/-! ### Association-list and map-update lemmas -/

theorem lookup_cons_pair (a k : List Char) (b : Nat) (es : List (List Char × Nat)) :
    List.lookup a ((k, b) :: es) = if a = k then some b else List.lookup a es := by
  simp [List.lookup]
  split
  · simp_all
  · simp_all

theorem lookup_mem {m : List (List Char × Nat)} {k : List Char} {v : Nat}
    (h : m.lookup k = some v) : (k, v) ∈ m := by
  induction m with
  | nil => simp [List.lookup] at h
  | cons p rest ih =>
    rcases p with ⟨a, b⟩
    rw [lookup_cons_pair] at h
    split at h
    · simp_all
    · exact List.mem_cons_of_mem _ (ih h)

theorem lookup_eq_none_iff {m : List (List Char × Nat)} {k : List Char} :
    m.lookup k = none ↔ k ∉ m.map Prod.fst := by
  induction m with
  | nil => simp [List.lookup]
  | cons p rest ih =>
    rcases p with ⟨a, b⟩
    rw [lookup_cons_pair]
    by_cases h : k = a <;> simp [h, ih]

theorem lookup_append_of_some {m l : List (List Char × Nat)} {k : List Char} {v : Nat}
    (h : m.lookup k = some v) : (m ++ l).lookup k = some v := by
  induction m with
  | nil => simp [List.lookup] at h
  | cons p rest ih =>
    rcases p with ⟨a, b⟩
    rw [lookup_cons_pair] at h
    rw [List.cons_append, lookup_cons_pair]
    split at h
    · simp_all
    · simp_all

theorem lookup_append_of_none {m l : List (List Char × Nat)} {k : List Char}
    (h : m.lookup k = none) : (m ++ l).lookup k = l.lookup k := by
  induction m with
  | nil => simp
  | cons p rest ih =>
    rcases p with ⟨a, b⟩
    rw [lookup_cons_pair] at h
    split at h
    · simp_all
    · rw [List.cons_append, lookup_cons_pair]
      simp_all

theorem mapSet_of_lookup_none {m : List (List Char × Nat)} {k : List Char}
    (v : Nat) (h : m.lookup k = none) : mapSet m k v = m ++ [(k, v)] := by
  induction m with
  | nil => rfl
  | cons p rest ih =>
    rcases p with ⟨a, b⟩
    rw [lookup_cons_pair] at h
    split at h
    · simp_all
    · rename_i hne
      have : ¬ (a = k) := fun hh => hne hh.symm
      simp [mapSet, this, ih h]

theorem mapSet_lookup_self (m : List (List Char × Nat)) (k : List Char) (v : Nat) :
    (mapSet m k v).lookup k = some v := by
  induction m with
  | nil => simp [mapSet, lookup_cons_pair]
  | cons p rest ih =>
    rcases p with ⟨a, b⟩
    by_cases h : a = k
    · simp [mapSet, h, lookup_cons_pair]
    · simp only [mapSet, h, if_false]
      rw [lookup_cons_pair]
      have : ¬ (k = a) := fun hh => h hh.symm
      simp [this, ih]

theorem mapSet_lookup_ne (m : List (List Char × Nat)) {k k' : List Char} (v : Nat)
    (h : k' ≠ k) : (mapSet m k v).lookup k' = m.lookup k' := by
  induction m with
  | nil => simp [mapSet, lookup_cons_pair, h]
  | cons p rest ih =>
    rcases p with ⟨a, b⟩
    by_cases ha : a = k
    · subst ha
      simp [mapSet, lookup_cons_pair, h]
    · simp only [mapSet, ha, if_false]
      rw [lookup_cons_pair, lookup_cons_pair]
      split <;> simp_all

theorem mapSet_keys_of_lookup_isSome {m : List (List Char × Nat)} {k : List Char}
    (v : Nat) (h : (m.lookup k).isSome) :
    (mapSet m k v).map Prod.fst = m.map Prod.fst := by
  induction m with
  | nil => simp [List.lookup] at h
  | cons p rest ih =>
    rcases p with ⟨a, b⟩
    rw [lookup_cons_pair] at h
    by_cases ha : a = k
    · simp [mapSet, ha]
    · have : ¬ (k = a) := fun hh => ha hh.symm
      simp only [this, if_false] at h
      simp [mapSet, ha, ih h]

theorem mapSet_length {m : List (List Char × Nat)} {k : List Char} (v : Nat)
    (h : (m.lookup k).isSome) : (mapSet m k v).length = m.length := by
  induction m with
  | nil => simp [List.lookup] at h
  | cons p rest ih =>
    rcases p with ⟨a, b⟩
    rw [lookup_cons_pair] at h
    by_cases ha : a = k
    · simp [mapSet, ha]
    · have : ¬ (k = a) := fun hh => ha hh.symm
      simp only [this, if_false] at h
      simp [mapSet, ha, ih h]

theorem key_eq_of_values_nodup {m : List (List Char × Nat)} {k1 k2 : List Char} {v : Nat}
    (hnd : (m.map Prod.snd).Nodup) (h1 : (k1, v) ∈ m) (h2 : (k2, v) ∈ m) : k1 = k2 := by
  induction m with
  | nil => simp at h1
  | cons p rest ih =>
    rcases p with ⟨a, b⟩
    rw [List.map_cons, List.nodup_cons] at hnd
    rcases List.mem_cons.mp h1 with h1 | h1 <;> rcases List.mem_cons.mp h2 with h2 | h2
    · rw [Prod.mk.injEq] at h1 h2
      rw [h1.1, h2.1]
    · exfalso
      apply hnd.1
      rw [Prod.mk.injEq] at h1
      show b ∈ _
      rw [show b = v from h1.2.symm]
      exact List.mem_map.mpr ⟨(k2, v), h2, rfl⟩
    · exfalso
      apply hnd.1
      rw [Prod.mk.injEq] at h2
      show b ∈ _
      rw [show b = v from h2.2.symm]
      exact List.mem_map.mpr ⟨(k1, v), h1, rfl⟩
    · exact ih hnd.2 h1 h2

theorem mapSet_cons (p : List Char × Nat) (rest : List (List Char × Nat))
    (k : List Char) (v : Nat) :
    mapSet (p :: rest) k v =
      if p.1 = k then (k, v) :: rest else p :: mapSet rest k v := rfl

theorem mapSet_nil (k : List Char) (v : Nat) : mapSet [] k v = [(k, v)] := rfl

/-! ### Rule ID Allocator lemmas -/

theorem allocMk_domainIdMap (m : List (List Char × Nat)) (n : Nat) :
    (AllocState.mk m n).domainIdMap = m := rfl

theorem allocMk_nextRuleId (m : List (List Char × Nat)) (n : Nat) :
    (AllocState.mk m n).nextRuleId = n := rfl

theorem getDomainRuleId_of_lookup_some {st : AllocState} {d : List Char} {i : Nat}
    (hwf : wfAlloc st) (h : st.domainIdMap.lookup d = some i) :
    getDomainRuleId st d = (i, st, false) := by
  have h1 : 1 ≤ i := (hwf.2.1 _ (lookup_mem h)).1
  unfold getDomainRuleId
  rw [h]
  simp [show i ≠ 0 by omega]

theorem getDomainRuleId_of_lookup_none {st : AllocState} {d : List Char}
    (h : st.domainIdMap.lookup d = none) :
    getDomainRuleId st d =
      (st.nextRuleId,
       { domainIdMap := mapSet st.domainIdMap d st.nextRuleId,
         nextRuleId := st.nextRuleId + 1 }, true) := by
  unfold getDomainRuleId
  rw [h]

theorem getDomainRuleId_spec (st : AllocState) (d : List Char) (hwf : wfAlloc st) :
    wfAlloc (getDomainRuleId st d).2.1 ∧
    (∀ d' j, st.domainIdMap.lookup d' = some j →
      (getDomainRuleId st d).2.1.domainIdMap.lookup d' = some j) ∧
    st.nextRuleId ≤ (getDomainRuleId st d).2.1.nextRuleId ∧
    (getDomainRuleId st d).2.1.domainIdMap.lookup d = some (getDomainRuleId st d).1 ∧
    ((getDomainRuleId st d).2.2 = true →
      st.domainIdMap.lookup d = none ∧ (getDomainRuleId st d).1 = st.nextRuleId) ∧
    ((getDomainRuleId st d).2.2 = false → (getDomainRuleId st d).2.1 = st) := by
  obtain ⟨hn, hb, hk, hv⟩ := hwf
  cases h : st.domainIdMap.lookup d with
  | some i =>
    rw [getDomainRuleId_of_lookup_some ⟨hn, hb, hk, hv⟩ h]
    refine ⟨⟨hn, hb, hk, hv⟩, fun d' j hj => hj, Nat.le_refl _, h, ?_, fun _ => rfl⟩
    intro hfalse
    exact absurd hfalse (by simp)
  | none =>
    rw [getDomainRuleId_of_lookup_none h]
    have hset : mapSet st.domainIdMap d st.nextRuleId =
        st.domainIdMap ++ [(d, st.nextRuleId)] := mapSet_of_lookup_none _ h
    have hkeyout : d ∉ st.domainIdMap.map Prod.fst := lookup_eq_none_iff.mp h
    have hvalout : st.nextRuleId ∉ st.domainIdMap.map Prod.snd := by
      intro hmem
      obtain ⟨p, hp, hpv⟩ := List.mem_map.mp hmem
      have := (hb p hp).2
      omega
    refine ⟨?_, ?_, ?_, ?_, ?_, ?_⟩
    · show wfAlloc ⟨mapSet st.domainIdMap d st.nextRuleId, st.nextRuleId + 1⟩
      refine ⟨?_, ?_, ?_, ?_⟩
      · show 1 ≤ st.nextRuleId + 1
        omega
      · show ∀ p ∈ mapSet st.domainIdMap d st.nextRuleId, 1 ≤ p.2 ∧ p.2 < st.nextRuleId + 1
        intro p hp
        rw [hset] at hp
        rcases List.mem_append.mp hp with hp | hp
        · have := hb p hp
          omega
        · simp at hp
          rw [hp]
          omega
      · show ((mapSet st.domainIdMap d st.nextRuleId).map Prod.fst).Nodup
        rw [hset, List.map_append, List.nodup_append]
        exact ⟨hk, List.nodup_singleton _, by simpa using hkeyout⟩
      · show ((mapSet st.domainIdMap d st.nextRuleId).map Prod.snd).Nodup
        rw [hset, List.map_append, List.nodup_append]
        exact ⟨hv, List.nodup_singleton _, by simpa using hvalout⟩
    · intro d' j hj
      show (mapSet st.domainIdMap d st.nextRuleId).lookup d' = some j
      rw [hset]
      exact lookup_append_of_some hj
    · show st.nextRuleId ≤ st.nextRuleId + 1
      omega
    · show (mapSet st.domainIdMap d st.nextRuleId).lookup d = some st.nextRuleId
      rw [hset, lookup_append_of_none h, lookup_cons_pair]
      simp
    · intro _
      exact ⟨rfl, rfl⟩
    · intro hfalse
      exact absurd hfalse (by simp)

/-! ### Rule synchronization lemmas -/

theorem applyRuleUpdate_removeAll (rules addRules : List Rule) :
    applyRuleUpdate rules (rules.map Rule.id) addRules = addRules := by
  unfold applyRuleUpdate
  have hnil : rules.filter (fun r => !((rules.map Rule.id).contains r.id)) = [] := by
    rw [List.filter_eq_nil_iff]
    intro r hr
    have hm : r.id ∈ rules.map Rule.id := List.mem_map.mpr ⟨r, hr, rfl⟩
    simp only [Bool.not_eq_true, Bool.not_eq_false]
    simpa using hm
  rw [hnil, List.nil_append]

theorem syncRules_nil (alloc : AllocState) (existingRules : List Rule) :
    syncRules alloc existingRules [] = ([], alloc) := by
  show (if (([] : List Rule).map Rule.id).Nodup then
      (applyRuleUpdate existingRules (existingRules.map Rule.id) [], alloc)
    else (existingRules, alloc)) = ([], alloc)
  rw [if_pos (by simp), applyRuleUpdate_removeAll]

/-! ### Effective block-set lemmas -/

theorem lookup_filter_of_valid {m : List (List Char × Nat)} {now : Nat}
    {k : List Char} {e : Nat} (h : m.lookup k = some e) (he : now < e) :
    (m.filter (fun p => decide (now < p.2))).lookup k = some e := by
  induction m with
  | nil => simp [List.lookup] at h
  | cons p rest ih =>
    rcases p with ⟨a, b⟩
    rw [lookup_cons_pair] at h
    by_cases hka : k = a
    · rw [if_pos hka] at h
      have hb : now < b := by
        cases h
        exact he
      rw [List.filter_cons_of_pos (by simpa using hb), lookup_cons_pair, if_pos hka]
      exact h
    · rw [if_neg hka] at h
      by_cases hb : now < b
      · rw [List.filter_cons_of_pos (by simpa using hb), lookup_cons_pair, if_neg hka]
        exact ih h
      · rw [List.filter_cons_of_neg (by simpa using hb)]
        exact ih h

theorem lookup_filter_of_none {m : List (List Char × Nat)} {now : Nat}
    {k : List Char} (h : m.lookup k = none) :
    (m.filter (fun p => decide (now < p.2))).lookup k = none := by
  induction m with
  | nil => simp [List.lookup]
  | cons p rest ih =>
    rcases p with ⟨a, b⟩
    rw [lookup_cons_pair] at h
    by_cases hka : k = a
    · rw [if_pos hka] at h
      cases h
    · rw [if_neg hka] at h
      by_cases hb : now < b
      · rw [List.filter_cons_of_pos (by simpa using hb), lookup_cons_pair, if_neg hka]
        exact ih h
      · rw [List.filter_cons_of_neg (by simpa using hb)]
        exact ih h

theorem lookup_filter_of_expired {m : List (List Char × Nat)} {now : Nat}
    {k : List Char} {e : Nat} (hk : (m.map Prod.fst).Nodup)
    (h : m.lookup k = some e) (he : e ≤ now) :
    (m.filter (fun p => decide (now < p.2))).lookup k = none := by
  induction m with
  | nil => simp [List.lookup] at h
  | cons p rest ih =>
    rcases p with ⟨a, b⟩
    rw [List.map_cons, List.nodup_cons] at hk
    rw [lookup_cons_pair] at h
    by_cases hka : k = a
    · rw [if_pos hka] at h
      have hb : b = e := by cases h; rfl
      rw [List.filter_cons_of_neg (by simp; omega)]
      apply lookup_filter_of_none
      rw [lookup_eq_none_iff, hka]
      exact hk.1
    · rw [if_neg hka] at h
      by_cases hb : now < b
      · rw [List.filter_cons_of_pos (by simpa using hb), lookup_cons_pair, if_neg hka]
        exact ih hk.2 h
      · rw [List.filter_cons_of_neg (by simpa using hb)]
        exact ih hk.2 h

theorem filter_eq_self_of_none_expired {m : List (List Char × Nat)} {now : Nat}
    (h : ∀ p ∈ m, now < p.2) :
    m.filter (fun p => decide (now < p.2)) = m := by
  rw [List.filter_eq_self]
  intro p hp
  simpa using h p hp

theorem any_expired_iff (m : List (List Char × Nat)) (now : Nat) :
    m.any (fun p => decide (p.2 ≤ now)) = true ↔ ∃ p ∈ m, p.2 ≤ now := by
  rw [List.any_eq_true]
  constructor
  · rintro ⟨p, hp, hd⟩
    exact ⟨p, hp, of_decide_eq_true hd⟩
  · rintro ⟨p, hp, hd⟩
    exact ⟨p, hp, decide_eq_true hd⟩

theorem getEffectiveBlockedSites_allows (blockedSites : List (List Char))
    (m : List (List Char × Nat)) (now : Nat) :
    (getEffectiveBlockedSites blockedSites m now).temporaryAllows =
      m.filter (fun p => decide (now < p.2)) := by
  unfold getEffectiveBlockedSites
  by_cases h : m.any (fun p => decide (p.2 ≤ now)) = true
  · simp only [h, if_true]
  · simp only [h]
    rw [if_neg (by simp at h; simp [h])]
    rw [filter_eq_self_of_none_expired]
    intro p hp
    rw [List.any_eq_true] at h
    push_neg at h
    have := h p hp
    simp at this
    omega

theorem getEffectiveBlockedSites_effective (bs : List (List Char))
    (m : List (List Char × Nat)) (now : Nat) :
    (getEffectiveBlockedSites bs m now).effective =
      bs.filter (fun d =>
        !(decide (now <
          (((getEffectiveBlockedSites bs m now).temporaryAllows.lookup d).getD 0)))) := rfl

theorem getEffectiveBlockedSites_persisted (bs : List (List Char))
    (m : List (List Char × Nat)) (now : Nat) :
    (getEffectiveBlockedSites bs m now).persisted =
      m.any (fun p => decide (p.2 ≤ now)) := rfl

/-! ### Re-block scheduling lemmas -/

theorem reblockStep_none (now : Nat) (p : List Char × Nat) :
    reblockStep now none p = if now < p.2 then some p.2 else none := rfl

theorem reblockStep_some (now : Nat) (a : Nat) (p : List Char × Nat) :
    reblockStep now (some a) p = if now < p.2 ∧ p.2 < a then some p.2 else some a := rfl

theorem reblockStep_valid {now : Nat} {acc : Option Nat} {p : List Char × Nat}
    (hacc : ∀ s, acc = some s → now < s) :
    ∀ s, reblockStep now acc p = some s → now < s := by
  intro s hs
  cases acc with
  | none =>
    rw [reblockStep_none] at hs
    by_cases h : now < p.2
    · rw [if_pos h] at hs
      cases hs
      exact h
    · rw [if_neg h] at hs
      cases hs
  | some a =>
    rw [reblockStep_some] at hs
    by_cases h : now < p.2 ∧ p.2 < a
    · rw [if_pos h] at hs
      cases hs
      exact h.1
    · rw [if_neg h] at hs
      cases hs
      exact hacc s rfl

theorem reblock_fold_spec (m : List (List Char × Nat)) (now : Nat) :
    ∀ acc : Option Nat, (∀ s, acc = some s → now < s) →
    (m.foldl (reblockStep now) acc = none ↔ acc = none ∧ ∀ p ∈ m, p.2 ≤ now) ∧
    (∀ t, m.foldl (reblockStep now) acc = some t →
      now < t ∧ (acc = some t ∨ t ∈ m.map Prod.snd) ∧
      (∀ p ∈ m, now < p.2 → t ≤ p.2) ∧ (∀ s, acc = some s → t ≤ s)) := by
  induction m with
  | nil =>
    intro acc hacc
    constructor
    · simp
    · intro t ht
      simp only [List.foldl_nil] at ht
      refine ⟨hacc t ht, Or.inl ht, by simp, ?_⟩
      intro s hs
      rw [ht] at hs
      cases hs
      exact Nat.le_refl _
  | cons p rest ih =>
    intro acc hacc
    have hacc' := reblockStep_valid (p := p) hacc
    obtain ⟨ihnone, ihsome⟩ := ih (reblockStep now acc p) hacc'
    rw [List.foldl_cons]
    constructor
    · rw [ihnone]
      constructor
      · rintro ⟨hstep, hrest⟩
        cases hc : acc with
        | none =>
          rw [hc, reblockStep_none] at hstep
          by_cases h : now < p.2
          · rw [if_pos h] at hstep
            cases hstep
          · refine ⟨rfl, ?_⟩
            intro q hq
            rcases List.mem_cons.mp hq with hq | hq
            · rw [hq]
              omega
            · exact hrest q hq
        | some a =>
          rw [hc, reblockStep_some] at hstep
          by_cases h : now < p.2 ∧ p.2 < a
          · rw [if_pos h] at hstep
            cases hstep
          · rw [if_neg h] at hstep
            cases hstep
      · rintro ⟨hc, hall⟩
        have hp2 : p.2 ≤ now := hall p (List.mem_cons_self p rest)
        have hstep : reblockStep now acc p = none := by
          rw [hc, reblockStep_none, if_neg (by omega)]
        refine ⟨hstep, ?_⟩
        intro q hq
        exact hall q (List.mem_cons_of_mem p hq)
    · intro t ht
      obtain ⟨hnt, hsrc, hmin, hle⟩ := ihsome t ht
      refine ⟨hnt, ?_, ?_, ?_⟩
      · rcases hsrc with hsrc | hsrc
        · cases hc : acc with
          | none =>
            rw [hc, reblockStep_none] at hsrc
            by_cases h : now < p.2
            · rw [if_pos h] at hsrc
              cases hsrc
              exact Or.inr (by simp)
            · rw [if_neg h] at hsrc
              cases hsrc
          | some a =>
            rw [hc, reblockStep_some] at hsrc
            by_cases h : now < p.2 ∧ p.2 < a
            · rw [if_pos h] at hsrc
              cases hsrc
              exact Or.inr (by simp)
            · rw [if_neg h] at hsrc
              cases hsrc
              exact Or.inl rfl
        · refine Or.inr ?_
          rw [List.map_cons]
          exact List.mem_cons_of_mem _ hsrc
      · intro q hq hnq
        rcases List.mem_cons.mp hq with hq | hq
        · have hnp : now < p.2 := by
            rw [hq] at hnq
            exact hnq
          obtain ⟨u, hu, hup⟩ : ∃ u, reblockStep now acc p = some u ∧ u ≤ p.2 := by
            cases hc : acc with
            | none =>
              refine ⟨p.2, ?_, Nat.le_refl _⟩
              rw [reblockStep_none, if_pos hnp]
            | some a =>
              by_cases h : p.2 < a
              · refine ⟨p.2, ?_, Nat.le_refl _⟩
                rw [reblockStep_some, if_pos ⟨hnp, h⟩]
              · refine ⟨a, ?_, by omega⟩
                rw [reblockStep_some, if_neg (by tauto)]
          rw [hq]
          exact Nat.le_trans (hle u hu) hup
        · exact hmin q hq hnq
      · intro s hs
        rw [hs, reblockStep_some] at hle
        by_cases h : now < p.2 ∧ p.2 < s
        · rw [if_pos h] at hle
          have := hle p.2 rfl
          omega
        · rw [if_neg h] at hle
          exact hle s rfl

theorem scheduleReblockAlarm_none_iff (m : List (List Char × Nat)) (now : Nat) :
    scheduleReblockAlarm m now = none ↔ ∀ p ∈ m, p.2 ≤ now := by
  have h := (reblock_fold_spec m now none (by intro s hs; cases hs)).1
  unfold scheduleReblockAlarm
  rw [h]
  simp

theorem scheduleReblockAlarm_some (m : List (List Char × Nat)) (now : Nat) (t : Nat)
    (h : scheduleReblockAlarm m now = some t) :
    now < t ∧ t ∈ m.map Prod.snd ∧ ∀ p ∈ m, now < p.2 → t ≤ p.2 := by
  have hs := (reblock_fold_spec m now none (by intro s hs; cases hs)).2 t h
  obtain ⟨h1, h2, h3, _⟩ := hs
  rcases h2 with h2 | h2
  · cases h2
  · exact ⟨h1, h2, h3⟩

theorem scheduleReblockAlarm_some_iff (m : List (List Char × Nat)) (now : Nat) (t : Nat) :
    scheduleReblockAlarm m now = some t ↔
      (t ∈ m.map Prod.snd ∧ now < t ∧ ∀ p ∈ m, now < p.2 → t ≤ p.2) := by
  constructor
  · intro h
    obtain ⟨h1, h2, h3⟩ := scheduleReblockAlarm_some m now t h
    exact ⟨h2, h1, h3⟩
  · rintro ⟨hmem, hnt, hmin⟩
    cases hres : scheduleReblockAlarm m now with
    | none =>
      rw [scheduleReblockAlarm_none_iff] at hres
      obtain ⟨q, hq, hqt⟩ := List.mem_map.mp hmem
      have := hres q hq
      omega
    | some u =>
      obtain ⟨hnu, humem, humin⟩ := scheduleReblockAlarm_some m now u hres
      obtain ⟨q, hq, hqt⟩ := List.mem_map.mp hmem
      obtain ⟨r, hr, hru⟩ := List.mem_map.mp humem
      have h1 : u ≤ t := by
        have := humin q hq (by omega)
        omega
      have h2 : t ≤ u := by
        have := hmin r hr (by omega)
        omega
      have hut : u = t := by omega
      rw [hut]

/-! ### Timer run lemmas -/

theorem tickSteps_zero (now : Nat) (p : TimerState × Bool) : tickSteps now 0 p = p := rfl

theorem tickSteps_succ (now n : Nat) (p : TimerState × Bool) :
    tickSteps now (n + 1) p = tickSteps now n (handleTimerTick p.1 p.2 now) := rfl

theorem tickSteps_add (now a b : Nat) (p : TimerState × Bool) :
    tickSteps now (a + b) p = tickSteps now b (tickSteps now a p) := by
  induction a generalizing p with
  | zero => rw [Nat.zero_add, tickSteps_zero]
  | succ a ih =>
    rw [Nat.succ_add, tickSteps_succ, tickSteps_succ, ih]

theorem handleTimerTick_running {s : TimerState} (b : Bool) (now : Nat)
    (hm : s.mode = Mode.work ∨ s.mode = Mode.brk) (ht : 2 ≤ s.timeRemaining) :
    handleTimerTick s b now =
      ({ s with timeRemaining := s.timeRemaining - 1, lastUpdate := now }, b) := by
  unfold handleTimerTick
  have hcond : ¬(s.mode ≠ Mode.work ∧ s.mode ≠ Mode.brk) := by
    rcases hm with hm | hm <;> simp [hm]
  rw [if_neg hcond]
  have hmax : max 0 (s.timeRemaining - 1) = s.timeRemaining - 1 := by omega
  simp only [hmax]
  rw [if_neg (by omega)]

theorem tickSteps_run (now : Nat) :
    ∀ (k : Nat) (s : TimerState) (b : Bool),
    (s.mode = Mode.work ∨ s.mode = Mode.brk) → k < s.timeRemaining →
    s.lastUpdate = now →
    tickSteps now k (s, b) = ({ s with timeRemaining := s.timeRemaining - k }, b) := by
  intro k
  induction k with
  | zero =>
    intro s b _ _ _
    rw [tickSteps_zero]
    rfl
  | succ k ih =>
    intro s b hm hk hlu
    rw [tickSteps_succ]
    have hstep := handleTimerTick_running b now hm (by omega)
    simp only [hstep]
    have hres := ih { s with timeRemaining := s.timeRemaining - 1, lastUpdate := now } b
      (by rcases hm with hm | hm <;> simp [hm]) (by simp; omega) (by simp)
    rw [hres]
    have : s.timeRemaining - 1 - k = s.timeRemaining - (k + 1) := by omega
    simp only [this]
    rw [hlu]

/-! ### Claim theorems -/

/-- C10: the domain normalization applied by the temporary-allow grant handler
returns, for every input string, exactly the same string as the popup's
`normalizeDomain`: both perform trim, lowercase, scheme strip, `www.` strip,
port strip and path/query/fragment strip in the same order, so a granted
exception always matches the block-list entry for the same site. -/
theorem grant_normalization_matches_blocklist (s : List Char) :
    grantNormalize s = normalizeDomain s := rfl

/-- C9: a tick arriving while the timer mode is neither `work` nor `break`
leaves the persisted TimerState record unchanged (no write occurs) and
cancels the recurring per-second wake-up, doing nothing else. -/
theorem stale_tick_is_safe (s : TimerState) (b : Bool) (now : Nat)
    (h1 : s.mode ≠ Mode.work) (h2 : s.mode ≠ Mode.brk) :
    handleTimerTick s b now = (s, false) := by
  unfold handleTimerTick
  rw [if_pos ⟨h1, h2⟩]

/-- Witness for C9 at the freshly initialized (idle) state. -/
theorem stale_tick_is_safe_witness :
    (initialTimerState 0).mode ≠ Mode.work ∧ (initialTimerState 0).mode ≠ Mode.brk ∧
    handleTimerTick (initialTimerState 0) true 5 = (initialTimerState 0, false) :=
  ⟨by decide, by decide, stale_tick_is_safe (initialTimerState 0) true 5 (by decide) (by decide)⟩

/-- C8 counterexample: `resetTimer` writes the constant `WORK_DURATION`
(1500), not the record's `workDuration` field, so for a state with
`workDuration = 600` the claimed postcondition
`timeRemaining = workDuration` is false. -/
theorem reset_uses_constant_counterexample :
    (resetTimer ⟨Mode.work, 100, 600, 300, true, 50, 0⟩ 5).1.timeRemaining = 1500 ∧
    (TimerState.mk Mode.work 100 600 300 true 50 0).workDuration = 600 ∧
    ¬((resetTimer ⟨Mode.work, 100, 600, 300, true, 50, 0⟩ 5).1.timeRemaining =
      (TimerState.mk Mode.work 100 600 300 true 50 0).workDuration) := by
  decide

/-- C8 amended: `reset`, issued from every timer state, yields mode `idle`
with `timeRemaining` equal to the fixed default work duration 1500 (which
equals the state's `workDuration` only when that field holds its default
value), and always cancels the per-second recurring wake-up. -/
theorem reset_goes_idle_default_duration (s : TimerState) (now : Nat) :
    (resetTimer s now).1.mode = Mode.idle ∧
    (resetTimer s now).1.timeRemaining = WORK_DURATION ∧
    (resetTimer s now).2 = false :=
  ⟨rfl, rfl, rfl⟩

/-- C3: from the idle initial state with `workDuration = 1500` and
`breakDuration = 300`, `start` yields mode `work` with
`timeRemaining = 1500`; 1500 subsequent ticks yield mode `break` with
`timeRemaining = 300`; one further tick leaves mode `break` with
`timeRemaining = 299`. -/
theorem timer_cycle (now lu : Nat) :
    (startTimer (initialTimerState lu) now).1.mode = Mode.work ∧
    (startTimer (initialTimerState lu) now).1.timeRemaining = 1500 ∧
    (tickSteps now 1500 (startTimer (initialTimerState lu) now)).1.mode = Mode.brk ∧
    (tickSteps now 1500 (startTimer (initialTimerState lu) now)).1.timeRemaining = 300 ∧
    (tickSteps now 1501 (startTimer (initialTimerState lu) now)).1.mode = Mode.brk ∧
    (tickSteps now 1501 (startTimer (initialTimerState lu) now)).1.timeRemaining = 299 := by
  have hstart : startTimer (initialTimerState lu) now =
      ({ mode := Mode.work, timeRemaining := 1500, workDuration := 1500,
         breakDuration := 300, musicEnabled := true, musicVolume := 50,
         lastUpdate := now }, true) := rfl
  have hrun : tickSteps now 1499 (startTimer (initialTimerState lu) now) =
      ({ mode := Mode.work, timeRemaining := 1, workDuration := 1500,
         breakDuration := 300, musicEnabled := true, musicVolume := 50,
         lastUpdate := now }, true) := by
    rw [hstart]
    have h := tickSteps_run now 1499
      { mode := Mode.work, timeRemaining := 1500, workDuration := 1500,
        breakDuration := 300, musicEnabled := true, musicVolume := 50,
        lastUpdate := now } true (Or.inl rfl) (by norm_num) rfl
    simpa using h
  have h1500 : tickSteps now 1500 (startTimer (initialTimerState lu) now) =
      ({ mode := Mode.brk, timeRemaining := 300, workDuration := 1500,
         breakDuration := 300, musicEnabled := true, musicVolume := 50,
         lastUpdate := now }, true) := by
    rw [show (1500 : Nat) = 1499 + 1 by norm_num, tickSteps_add, hrun]
    rfl
  have h1501 : tickSteps now 1501 (startTimer (initialTimerState lu) now) =
      ({ mode := Mode.brk, timeRemaining := 299, workDuration := 1500,
         breakDuration := 300, musicEnabled := true, musicVolume := 50,
         lastUpdate := now }, true) := by
    rw [show (1501 : Nat) = 1500 + 1 by norm_num, tickSteps_add, h1500]
    rfl
  refine ⟨?_, ?_, ?_, ?_, ?_, ?_⟩
  · rw [hstart]
  · rw [hstart]
  · rw [h1500]
  · rw [h1500]
  · rw [h1501]
  · rw [h1501]

/-- C4: calling the rule-id allocator twice in sequence for the same domain
returns the same id both times, and the second call performs no write: the
persisted map and counter are returned unchanged. -/
theorem idFor_idempotent (st : AllocState) (d : List Char) (hwf : wfAlloc st) :
    (getDomainRuleId (getDomainRuleId st d).2.1 d).1 = (getDomainRuleId st d).1 ∧
    (getDomainRuleId (getDomainRuleId st d).2.1 d).2.1 = (getDomainRuleId st d).2.1 ∧
    (getDomainRuleId (getDomainRuleId st d).2.1 d).2.2 = false := by
  obtain ⟨hwf1, _, _, hlk, _, _⟩ := getDomainRuleId_spec st d hwf
  rw [getDomainRuleId_of_lookup_some hwf1 hlk]
  exact ⟨rfl, rfl, rfl⟩

/-- Witness for C4 at the empty allocator state and domain `a.com`. -/
theorem idFor_idempotent_witness :
    wfAlloc ⟨[], 1⟩ ∧
    ((getDomainRuleId (getDomainRuleId ⟨[], 1⟩ (str "a.com")).2.1 (str "a.com")).1 =
        (getDomainRuleId ⟨[], 1⟩ (str "a.com")).1 ∧
      (getDomainRuleId (getDomainRuleId ⟨[], 1⟩ (str "a.com")).2.1 (str "a.com")).2.1 =
        (getDomainRuleId ⟨[], 1⟩ (str "a.com")).2.1 ∧
      (getDomainRuleId (getDomainRuleId ⟨[], 1⟩ (str "a.com")).2.1 (str "a.com")).2.2 =
        false) :=
  ⟨by decide, idFor_idempotent ⟨[], 1⟩ (str "a.com") (by decide)⟩

/-- C5: every allocator invocation preserves the DomainIdMap invariant: no
existing binding is modified, the counter never decreases, a freshly
allocated id equals the pre-call counter, well-formedness is preserved, and
no id is ever bound to two different domains. -/
theorem allocator_preserves_invariant (st : AllocState) (d : List Char)
    (hwf : wfAlloc st) :
    (∀ d' j, st.domainIdMap.lookup d' = some j →
      (getDomainRuleId st d).2.1.domainIdMap.lookup d' = some j) ∧
    st.nextRuleId ≤ (getDomainRuleId st d).2.1.nextRuleId ∧
    ((getDomainRuleId st d).2.2 = true → (getDomainRuleId st d).1 = st.nextRuleId) ∧
    wfAlloc (getDomainRuleId st d).2.1 ∧
    (∀ d1 d2 j, (getDomainRuleId st d).2.1.domainIdMap.lookup d1 = some j →
      (getDomainRuleId st d).2.1.domainIdMap.lookup d2 = some j → d1 = d2) := by
  obtain ⟨hwf', hpres, hle, _, hfresh, _⟩ := getDomainRuleId_spec st d hwf
  refine ⟨hpres, hle, fun hw => (hfresh hw).2, hwf', ?_⟩
  intro d1 d2 j h1 h2
  exact key_eq_of_values_nodup hwf'.2.2.2 (lookup_mem h1) (lookup_mem h2)

/-- Witness for C5: allocating `b.com` in a store that already binds
`a.com` to id 1. -/
theorem allocator_preserves_invariant_witness :
    wfAlloc ⟨[(str "a.com", 1)], 2⟩ ∧
    ((∀ d' j, (AllocState.mk [(str "a.com", 1)] 2).domainIdMap.lookup d' = some j →
        (getDomainRuleId ⟨[(str "a.com", 1)], 2⟩ (str "b.com")).2.1.domainIdMap.lookup d' =
          some j) ∧
      (AllocState.mk [(str "a.com", 1)] 2).nextRuleId ≤
        (getDomainRuleId ⟨[(str "a.com", 1)], 2⟩ (str "b.com")).2.1.nextRuleId ∧
      ((getDomainRuleId ⟨[(str "a.com", 1)], 2⟩ (str "b.com")).2.2 = true →
        (getDomainRuleId ⟨[(str "a.com", 1)], 2⟩ (str "b.com")).1 =
          (AllocState.mk [(str "a.com", 1)] 2).nextRuleId) ∧
      wfAlloc (getDomainRuleId ⟨[(str "a.com", 1)], 2⟩ (str "b.com")).2.1 ∧
      (∀ d1 d2 j,
        (getDomainRuleId ⟨[(str "a.com", 1)], 2⟩ (str "b.com")).2.1.domainIdMap.lookup d1 =
          some j →
        (getDomainRuleId ⟨[(str "a.com", 1)], 2⟩ (str "b.com")).2.1.domainIdMap.lookup d2 =
          some j → d1 = d2)) :=
  ⟨by decide, allocator_preserves_invariant ⟨[(str "a.com", 1)], 2⟩ (str "b.com") (by decide)⟩

/-- C1: the claimed exact reconciliation — rule collection equal to exactly
one rule per effective-set domain with no duplicate ids and no stale rules —
fails on the code.  On the first sync of two fresh domains every concurrent
allocator call reads the same `nextRuleId = 1` snapshot before any write
lands, so both rules get id 1; the engine rejects the duplicate-id batch and
the stale collection survives.  Section 9 of the specification flags this
unguarded read-then-write as a latent bug of the original code, so the claim
states the intent and the code is in defect. -/
theorem sync_duplicate_ids_bug :
    (buildNewRules ⟨[], 1⟩ [str "a.com", str "b.com"]).map Rule.id = [1, 1] ∧
    ¬((buildNewRules ⟨[], 1⟩ [str "a.com", str "b.com"]).map Rule.id).Nodup ∧
    (syncRules ⟨[], 1⟩ [buildRule (str "old.com") 7] [str "a.com", str "b.com"]).1 =
      [buildRule (str "old.com") 7] := by
  decide

/-- C2: `effectiveBlockSet` returns the block list minus the domains whose
temporary-allow entry has expiry strictly greater than `now`; it leaves in
storage exactly the entries with expiry greater than `now`, and writes the
pruned map back exactly when at least one entry was removed.  In particular,
for block list `[a.com, b.com]` and an allow for `a.com` expiring in 60 s,
the effective set is `[b.com]`; 61 s later both domains are effective and
the `a.com` entry is gone. -/
theorem effective_set_correct (bs : List (List Char)) (m : List (List Char × Nat))
    (now : Nat) (hk : (m.map Prod.fst).Nodup) :
    (∀ d, d ∈ (getEffectiveBlockedSites bs m now).effective ↔
      d ∈ bs ∧ ¬(∃ e, m.lookup d = some e ∧ now < e)) ∧
    (getEffectiveBlockedSites bs m now).temporaryAllows =
      m.filter (fun p => decide (now < p.2)) ∧
    ((getEffectiveBlockedSites bs m now).persisted = true ↔ ∃ p ∈ m, p.2 ≤ now) ∧
    (∀ now0 : Nat,
      (getEffectiveBlockedSites [str "a.com", str "b.com"]
        [(str "a.com", now0 + 60000)] now0).effective = [str "b.com"] ∧
      (getEffectiveBlockedSites [str "a.com", str "b.com"]
        [(str "a.com", now0 + 60000)] (now0 + 61000)).effective =
        [str "a.com", str "b.com"] ∧
      (getEffectiveBlockedSites [str "a.com", str "b.com"]
        [(str "a.com", now0 + 60000)] (now0 + 61000)).temporaryAllows = []) := by
  refine ⟨?_, getEffectiveBlockedSites_allows bs m now, ?_, ?_⟩
  · intro d
    rw [getEffectiveBlockedSites_effective, List.mem_filter,
        getEffectiveBlockedSites_allows]
    constructor
    · rintro ⟨hbs, hcond⟩
      refine ⟨hbs, ?_⟩
      rintro ⟨e, he, hne⟩
      rw [lookup_filter_of_valid he hne] at hcond
      simp at hcond
      omega
    · rintro ⟨hbs, hcond⟩
      refine ⟨hbs, ?_⟩
      cases hlk : m.lookup d with
      | none =>
        rw [lookup_filter_of_none hlk]
        simp
      | some e =>
        by_cases he : now < e
        · exact absurd ⟨e, hlk, he⟩ hcond
        · rw [lookup_filter_of_expired hk hlk (by omega)]
          simp
  · rw [getEffectiveBlockedSites_persisted]
    exact any_expired_iff m now
  · intro now0
    have h1 : now0 < now0 + 60000 := by omega
    have h3 : ¬(now0 + 61000 < now0 + 60000) := by omega
    have h2 : ¬(now0 + 60000 ≤ now0) := by omega
    have hba : ¬(str "b.com" = str "a.com") := by decide
    have hallows0 : (getEffectiveBlockedSites [str "a.com", str "b.com"]
        [(str "a.com", now0 + 60000)] now0).temporaryAllows =
        [(str "a.com", now0 + 60000)] := by
      rw [getEffectiveBlockedSites_allows,
          List.filter_cons_of_pos (by simp [h1]), List.filter_nil]
    have hallows61 : (getEffectiveBlockedSites [str "a.com", str "b.com"]
        [(str "a.com", now0 + 60000)] (now0 + 61000)).temporaryAllows = [] := by
      rw [getEffectiveBlockedSites_allows,
          List.filter_cons_of_neg (by simp [h3]), List.filter_nil]
    refine ⟨?_, ?_, hallows61⟩
    · rw [getEffectiveBlockedSites_effective, hallows0]
      rw [List.filter_cons_of_neg ?_, List.filter_cons_of_pos ?_, List.filter_nil]
      · rw [lookup_cons_pair, if_neg hba]
        simp [List.lookup]
      · rw [lookup_cons_pair, if_pos rfl]
        simp [h1]
    · rw [getEffectiveBlockedSites_effective, hallows61]
      rw [List.filter_cons_of_pos ?_, List.filter_cons_of_pos ?_, List.filter_nil]
      · simp [List.lookup]
      · simp [List.lookup]

/-- Witness for C2 with a two-entry allow map, one live and one expired. -/
theorem effective_set_correct_witness :
    (([(str "a.com", 50), (str "c.com", 200)].map Prod.fst).Nodup) ∧
    ((∀ d, d ∈ (getEffectiveBlockedSites [str "a.com", str "b.com"]
        [(str "a.com", 50), (str "c.com", 200)] 100).effective ↔
      d ∈ [str "a.com", str "b.com"] ∧
      ¬(∃ e, [(str "a.com", 50), (str "c.com", 200)].lookup d = some e ∧ 100 < e)) ∧
    (getEffectiveBlockedSites [str "a.com", str "b.com"]
        [(str "a.com", 50), (str "c.com", 200)] 100).temporaryAllows =
      [(str "a.com", 50), (str "c.com", 200)].filter (fun p => decide (100 < p.2)) ∧
    ((getEffectiveBlockedSites [str "a.com", str "b.com"]
        [(str "a.com", 50), (str "c.com", 200)] 100).persisted = true ↔
      ∃ p ∈ [(str "a.com", 50), (str "c.com", 200)], p.2 ≤ 100) ∧
    (∀ now0 : Nat,
      (getEffectiveBlockedSites [str "a.com", str "b.com"]
        [(str "a.com", now0 + 60000)] now0).effective = [str "b.com"] ∧
      (getEffectiveBlockedSites [str "a.com", str "b.com"]
        [(str "a.com", now0 + 60000)] (now0 + 61000)).effective =
        [str "a.com", str "b.com"] ∧
      (getEffectiveBlockedSites [str "a.com", str "b.com"]
        [(str "a.com", now0 + 60000)] (now0 + 61000)).temporaryAllows = [])) :=
  ⟨by decide, effective_set_correct [str "a.com", str "b.com"]
    [(str "a.com", 50), (str "c.com", 200)] 100 (by decide)⟩

/-- C7 counterexample: the handler normalizes before validating, so an input
that contains a scheme, a path and slashes is accepted rather than rejected:
granting `https://example.com/path` succeeds and mutates the allow map, where
the claim requires an `InvalidDomain` failure with no state mutation. -/
theorem grant_validation_counterexample :
    (allowFiveMinutes ⟨[str "example.com"], [], [], 1, [], none⟩
      (str "https://example.com/path") 1000).2.ok = true ∧
    (allowFiveMinutes ⟨[str "example.com"], [], [], 1, [], none⟩
      (str "https://example.com/path") 1000).1.temporaryAllows =
      [(str "example.com", 301000)] := by
  decide

/-- C7 amended: the grant handler validates the NORMALIZED input: after
trimming, lowercasing and stripping scheme, `www.`, port, path, query and
fragment, it fails — reporting `ok = false` with error `invalid domain` and
leaving the entire persisted state unchanged — exactly when the residue is
empty or contains a slash or a space; any input whose residue is a bare
hostname (even one that arrived with a scheme or path) is granted. -/
theorem grant_validates_normalized_input (st : SysState) (site : List Char) (now : Nat) :
    (((grantNormalize site).isEmpty || (grantNormalize site).contains '/' ||
        (grantNormalize site).contains ' ') = true →
      allowFiveMinutes st site now =
        (st, { ok := false, error := some (str "invalid domain") })) ∧
    (((grantNormalize site).isEmpty || (grantNormalize site).contains '/' ||
        (grantNormalize site).contains ' ') = false →
      (allowFiveMinutes st site now).2.ok = true ∧
      (allowFiveMinutes st site now).2.error = none) := by
  constructor
  · intro h
    unfold allowFiveMinutes
    rw [if_pos h]
  · intro h
    unfold allowFiveMinutes
    rw [if_neg (by rw [h]; exact Bool.false_ne_true)]
    exact ⟨rfl, rfl⟩

/-- Witness for C7's amended claim: an inner space survives normalization, so
the grant fails and the state is returned untouched. -/
theorem grant_validates_normalized_input_witness :
    (((grantNormalize (str " a b.com ")).isEmpty ||
        (grantNormalize (str " a b.com ")).contains '/' ||
        (grantNormalize (str " a b.com ")).contains ' ') = true) ∧
    allowFiveMinutes ⟨[], [], [], 1, [], none⟩ (str " a b.com ") 7 =
      (⟨[], [], [], 1, [], none⟩, { ok := false, error := some (str "invalid domain") }) :=
  ⟨by decide,
    (grant_validates_normalized_input ⟨[], [], [], 1, [], none⟩ (str " a b.com ") 7).1
      (by decide)⟩

/-- C6: a fresh grant for an already-allowed domain overwrites that domain's
expiry in place (same keys, same length, other entries untouched); the
reblock scheduler leaves at most one pending wake-up — `some` of the minimum
expiry strictly greater than `now` when one exists, cancelled (`none`)
otherwise.  In particular granting `x.com` for 300 s at `t0` and again at
`t0 + 100` s leaves a single wake-up at `t0 + 400` s (timestamps in
milliseconds). -/
theorem grant_overwrites_and_reschedules (m : List (List Char × Nat))
    (d : List Char) (e now : Nat) :
    ((m.lookup d).isSome →
      (mapSet m d e).map Prod.fst = m.map Prod.fst ∧
      (mapSet m d e).length = m.length) ∧
    (mapSet m d e).lookup d = some e ∧
    (∀ d', d' ≠ d → (mapSet m d e).lookup d' = m.lookup d') ∧
    (scheduleReblockAlarm m now = none ↔ ∀ p ∈ m, p.2 ≤ now) ∧
    (∀ t, scheduleReblockAlarm m now = some t ↔
      (t ∈ m.map Prod.snd ∧ now < t ∧ ∀ p ∈ m, now < p.2 → t ≤ p.2)) ∧
    (∀ t0 : Nat,
      (allowFiveMinutes (allowFiveMinutes ⟨[str "x.com"], [], [], 1, [], none⟩
          (str "x.com") t0).1 (str "x.com") (t0 + 100000)).1.temporaryAllows =
        [(str "x.com", t0 + 400000)] ∧
      (allowFiveMinutes (allowFiveMinutes ⟨[str "x.com"], [], [], 1, [], none⟩
          (str "x.com") t0).1 (str "x.com") (t0 + 100000)).1.reblockAlarm =
        some (t0 + 400000)) := by
  refine ⟨fun hsome => ⟨mapSet_keys_of_lookup_isSome e hsome, mapSet_length e hsome⟩,
    mapSet_lookup_self m d e, fun d' hne => mapSet_lookup_ne m e hne,
    scheduleReblockAlarm_none_iff m now, scheduleReblockAlarm_some_iff m now, ?_⟩
  intro t0
  have hdom : grantNormalize (str "x.com") = str "x.com" := by decide
  have h1 : t0 < t0 + 300000 := by omega
  have h2 : t0 + 100000 < t0 + 400000 := by omega
  have hdur1 : t0 + ALLOW_DURATION_MS = t0 + 300000 := by
    unfold ALLOW_DURATION_MS
    omega
  have hdur2 : t0 + 100000 + ALLOW_DURATION_MS = t0 + 400000 := by
    unfold ALLOW_DURATION_MS
    omega
  have hgrant1 : (allowFiveMinutes ⟨[str "x.com"], [], [], 1, [], none⟩
      (str "x.com") t0).1 =
      ⟨[str "x.com"], [(str "x.com", t0 + 300000)], [], 1, [], some (t0 + 300000)⟩ := by
    have hmap : mapSet [] (str "x.com") (t0 + ALLOW_DURATION_MS) =
        [(str "x.com", t0 + 300000)] := by
      rw [mapSet_nil, hdur1]
    have halarm : scheduleReblockAlarm [(str "x.com", t0 + 300000)] t0 =
        some (t0 + 300000) := by
      unfold scheduleReblockAlarm
      rw [List.foldl_cons, List.foldl_nil, reblockStep_none, if_pos h1]
    have hallows : (getEffectiveBlockedSites [str "x.com"]
        [(str "x.com", t0 + 300000)] t0).temporaryAllows =
        [(str "x.com", t0 + 300000)] := by
      rw [getEffectiveBlockedSites_allows,
          List.filter_cons_of_pos (by simp [h1]), List.filter_nil]
    have heff : (getEffectiveBlockedSites [str "x.com"]
        [(str "x.com", t0 + 300000)] t0).effective = [] := by
      rw [getEffectiveBlockedSites_effective, hallows]
      rw [List.filter_cons_of_neg ?_, List.filter_nil]
      rw [lookup_cons_pair, if_pos rfl]
      simp [h1]
    unfold allowFiveMinutes
    rw [hdom, if_neg (by decide)]
    simp only [hmap, halarm, heff, hallows, syncRules_nil]
  rw [hgrant1]
  have hmap2 : mapSet [(str "x.com", t0 + 300000)] (str "x.com")
      (t0 + 100000 + ALLOW_DURATION_MS) = [(str "x.com", t0 + 400000)] := by
    rw [mapSet_cons, if_pos rfl, hdur2]
  have halarm2 : scheduleReblockAlarm [(str "x.com", t0 + 400000)] (t0 + 100000) =
      some (t0 + 400000) := by
    unfold scheduleReblockAlarm
    rw [List.foldl_cons, List.foldl_nil, reblockStep_none, if_pos h2]
  have hallows2 : (getEffectiveBlockedSites [str "x.com"]
      [(str "x.com", t0 + 400000)] (t0 + 100000)).temporaryAllows =
      [(str "x.com", t0 + 400000)] := by
    rw [getEffectiveBlockedSites_allows,
        List.filter_cons_of_pos (by simp [h2]), List.filter_nil]
  have heff2 : (getEffectiveBlockedSites [str "x.com"]
      [(str "x.com", t0 + 400000)] (t0 + 100000)).effective = [] := by
    rw [getEffectiveBlockedSites_effective, hallows2]
    rw [List.filter_cons_of_neg ?_, List.filter_nil]
    rw [lookup_cons_pair, if_pos rfl]
    simp [h2]
  unfold allowFiveMinutes
  rw [hdom, if_neg (by decide)]
  simp only [hmap2, halarm2, heff2, hallows2, syncRules_nil]
  constructor <;> trivial

/-- Witness for C6 at a map that already holds a live entry for `x.com`. -/
theorem grant_overwrites_and_reschedules_witness :
    (([(str "x.com", 500)].lookup (str "x.com")).isSome ∧
      (mapSet [(str "x.com", 500)] (str "x.com") 900).map Prod.fst =
        [(str "x.com", 500)].map Prod.fst ∧
      (mapSet [(str "x.com", 500)] (str "x.com") 900).length =
        [(str "x.com", 500)].length) ∧
    (mapSet [(str "x.com", 500)] (str "x.com") 900).lookup (str "x.com") = some 900 :=
  ⟨⟨by decide,
    (grant_overwrites_and_reschedules [(str "x.com", 500)] (str "x.com") 900 100).1
      (by decide)⟩,
   (grant_overwrites_and_reschedules [(str "x.com", 500)] (str "x.com") 900 100).2.1⟩

end WebsiteBlocker
